import Mathlib

/-!
Verification of the protocol core of the ax6003Py repository (src/scpy.py):
the line encoder `prepare_line_to_send`, the token parser `parse_line`, and
the command transactor `Scpy.command`.

Shallow embedding conventions:
- Python `bytes` are `List Nat` (one entry per byte; all transcripts in this
  development are ASCII, and `bytes.decode()` is modelled as the byte-to-char
  map, which agrees with UTF-8/Latin-1 decoding on ASCII input).
- Python `float` values produced by `float(cleaned)` are modelled as exact
  decimal rationals `ℚ`; the parsed strings contain only digits and at most
  one period, and no claim compares floats arising from distinct spellings,
  so binary rounding is irrelevant to every statement below.
- Fallible Python code (statements that can raise `IndexError`, and the
  transactor, which can propagate such an error) returns `Option` / an
  outcome type with an `exn` constructor.
- The serial port is modelled as an explicit state (`Scpy` structure): a
  mutable timeout, the bytes already buffered on the receive side (drained
  by `read_all`), the list of lines the transport will hand to `readline`
  in order (an exhausted list models a read timeout, where `readline`
  returns the empty byte string), and a log of the lines written.
-/

/-- Bytes of an ASCII string literal, for writing concrete byte strings. -/
def b (s : String) : List Nat := s.toList.map Char.toNat

/-- Model of `bytes.decode()` restricted to ASCII input: byte-to-char map. -/
def decodeBytes (bs : List Nat) : List Char := bs.map Char.ofNat

/-- Characters removed by Python `str.strip()` (ASCII whitespace). -/
def pyIsSpace (c : Char) : Bool :=
  c == ' ' || c == '\t' || c == '\n' || c == '\r' || c == '\x0b' || c == '\x0c'

/-- Model of Python `str.strip()`: drop leading and trailing whitespace. -/
def pystrip (cs : List Char) : List Char :=
  ((cs.dropWhile pyIsSpace).reverse.dropWhile pyIsSpace).reverse

/-- The delimiter class of `re.split(r"[, ;#!?:]+", line)` in `parse_line`. -/
def isDelim (c : Char) : Bool :=
  c == ',' || c == ' ' || c == ';' || c == '#' || c == '!' || c == '?' || c == ':'

/-- Model of `re.split(r"[, ;#!?:]+", s)`: split at every maximal nonempty
run of delimiter characters. A run at the start or end of the string leaves
an empty piece at that boundary, exactly as `re.split` does; `""` splits to
`[""]`. Adjacent delimiters merge because the regex matches a whole run at
once; the merge is encoded by skipping the remainder of a run (the second
equation recurses past a delimiter whose successor is also a delimiter). -/
def pysplit : List Char → List (List Char)
  | [] => [[]]
  | c :: rest =>
    if isDelim c then
      match rest with
      | r :: _ => if isDelim r then pysplit rest else [] :: pysplit rest
      | [] => [[], []]
    else
      match pysplit rest with
      | [] => [[c]]
      | t :: ts => (c :: t) :: ts

/-- Value of a string of decimal digits, most significant digit first. -/
def digitsToNat (cs : List Char) : Nat :=
  cs.foldl (fun a c => 10 * a + (c.toNat - 48)) 0

/-- Model of `int(cleaned)` for the sanitized alphabet: `cleaned` contains
only characters from `[0-9,.]` (the image of the `re.sub` in `parse_line`),
and on that alphabet `int` succeeds exactly on nonempty all-digit strings
(a comma or a period makes `int` raise `ValueError`). -/
def pyint (cs : List Char) : Option Int :=
  if !cs.isEmpty && cs.all Char.isDigit then Option.some (digitsToNat cs : Int)
  else Option.none

/-- Model of `float(cleaned)` for the sanitized alphabet `[0-9,.]`: a comma
always fails; otherwise the string must be `digits`, `digits.digits`,
`digits.` or `.digits` (at least one digit, at most one period), and the
value is the exact decimal rational `ip.fp = (ip·10^k + fp) / 10^k` with
`k` the number of fractional digits (built with `mkRat` in one step). -/
def pyfloat (cs : List Char) : Option ℚ :=
  if cs.any (fun c => c == ',') then Option.none
  else
    let ip := cs.takeWhile (fun c => c != '.')
    match cs.dropWhile (fun c => c != '.') with
    | [] =>
      if !ip.isEmpty && ip.all Char.isDigit then Option.some (mkRat (digitsToNat ip) 1)
      else Option.none
    | _ :: fp =>
      if fp.any (fun c => c == '.') then Option.none
      else if (ip.all Char.isDigit && fp.all Char.isDigit) && (!ip.isEmpty || !fp.isEmpty) then
        Option.some (mkRat (digitsToNat ip * 10 ^ fp.length + digitsToNat fp) (10 ^ fp.length))
      else Option.none

/-- Python values that flow through `parse_line` and `Scpy.command`:
`None`, `int`, `float`, `str`, and `list`. -/
inductive PyVal where
  | none : PyVal
  | int (n : Int) : PyVal
  | float (q : ℚ) : PyVal
  | str (s : String) : PyVal
  | list (vs : List PyVal) : PyVal

/-- Model of `re.sub('[^0-9,.]', '', token)`: keep digits, commas, periods. -/
def sanitizeToken (t : List Char) : List Char :=
  t.filter (fun c => c.isDigit || c == ',' || c == '.')

/-- One iteration of the token loop of `parse_line`: sanitize, try `int`,
try `float`, and fall back to the original (unsanitized) token text. -/
def classifyToken (t : List Char) : PyVal :=
  match pyint (sanitizeToken t) with
  | Option.some n => PyVal.int n
  | Option.none =>
    match pyfloat (sanitizeToken t) with
    | Option.some q => PyVal.float q
    | Option.none => PyVal.str (String.mk t)

/-- The `output_val` list of `parse_line`: decode, strip, split, classify. -/
def tokenValues (line : List Nat) : List PyVal :=
  (pysplit (pystrip (decodeBytes line))).map classifyToken

/-- The token list of `parse_line` before classification (decode, strip,
split); used to state the tokenization claims. -/
def splitTokens (line : List Nat) : List (List Char) :=
  pysplit (pystrip (decodeBytes line))

/-- Model of `parse_line` (src/scpy.py): tokenize and classify, then
collapse — one value is returned bare, zero values give `None`, two or
more give the list. -/
def parse_line (line : List Nat) : PyVal :=
  match tokenValues line with
  | [v] => v
  | [] => PyVal.none
  | vs => PyVal.list vs

/-- One iteration of the loop of `prepare_line_to_send`, after the
`str(word).encode()` step (the embedding takes the already-rendered byte
chunks as input): `word[-1]` raises `IndexError` on an empty chunk, and a
trailing carriage-return byte (13) is stripped. -/
def prepWord (w : List Nat) : Option (List Nat) :=
  match w.getLast? with
  | Option.none => Option.none
  | Option.some x => Option.some (if x = 13 then w.dropLast else w)

/-- Run `prepWord` over all chunks, left to right, propagating the first
failure (the Python loop raises at the first empty chunk). -/
def prepWords : List (List Nat) → Option (List (List Nat))
  | [] => Option.some []
  | w :: ws =>
    match prepWord w with
    | Option.none => Option.none
    | Option.some w' =>
      match prepWords ws with
      | Option.none => Option.none
      | Option.some ws' => Option.some (w' :: ws')

/-- The `output_buffer` of `prepare_line_to_send` before the final pop:
each chunk is followed by its separator, `b' '` after the chunk at index 0
and `b','` after every later chunk (`b',' if index else b' '`). -/
def sepBuffer : List (List Nat) → List (List Nat)
  | [] => []
  | w :: ws => w :: [32] :: ws.flatMap (fun v => [v, [44]])

/-- Model of `prepare_line_to_send` (src/scpy.py): render chunks (with the
trailing-CR strip), interleave separators, pop the trailing separator
(`pop(-1)` raises `IndexError` on zero arguments), append the newline byte
and join. Failures (`IndexError` on an empty chunk or on zero arguments)
are `Option.none`. -/
def prepare_line_to_send (args : List (List Nat)) : Option (List Nat) :=
  match prepWords args with
  | Option.none => Option.none
  | Option.some ws =>
    match sepBuffer ws with
    | [] => Option.none
    | x :: buf => Option.some ((((x :: buf).dropLast) ++ [[10]]).flatten)

/-- State of one `Scpy` session over the modelled transport: the mutable
`timeout` attribute, the bytes already buffered on the receive side
(drained by `read_all`), the lines the transport will hand to `readline`
in order (exhaustion models a read timeout: `readline` then returns the
empty byte string), the `echo_of_the_command` attribute, and the log of
lines written to the wire. -/
structure Scpy where
  timeout : ℚ
  stale : List Nat
  transcript : List (List Nat)
  echo_of_the_command : Option (List Nat)
  written : List (List Nat)

/-- Model of `self.read_all()`: return and clear the receive buffer. -/
def Scpy.read_all (s : Scpy) : List Nat × Scpy :=
  (s.stale, { s with stale := [] })

/-- Model of `Scpy.write_line`: encode the chunks, record the encoded line
as `echo_of_the_command`, and write it. If `prepare_line_to_send` raises,
the exception propagates before the marker is set or any byte is written
(the busy-wait on `out_waiting` and the `flush` have no observable effect
in this model). -/
def Scpy.write_line (s : Scpy) (args : List (List Nat)) : Option Scpy :=
  match prepare_line_to_send args with
  | Option.none => Option.none
  | Option.some line =>
    Option.some { s with
      echo_of_the_command := Option.some line
      written := s.written ++ [line] }

/-- Model of Python `needle in line` on bytes: contiguous substring test. -/
def bytesContains (line needle : List Nat) : Bool :=
  (List.range (line.length + 1)).any (fun i => needle.isPrefixOf (line.drop i))

/-- Python `parsed == ''` specialised to the values reachable here: only a
`str` equals the empty string. Used for the `'' in response` membership
test and the `response.remove('')` call of `Scpy.command`. -/
def isEmptyStr : PyVal → Bool
  | PyVal.str s => s == ""
  | _ => false

/-- The `while True` read loop of `Scpy.command`. The first equation is the
`if response: break` guard. On a line from the transport: a line containing
the echo marker is skipped (`continue`); otherwise the line is parsed and
appended, and `if '' in response: response.remove(''); break` (the
`remove` drops the first matching element, as `List.eraseP` does). An
exhausted transcript models a read timeout: `readline` returns the empty
byte string, which is processed by the same code path; if the echo marker
were contained in the empty string (only possible for an empty marker) the
Python loop would re-read the empty string forever, modelled as
`Option.none`. -/
def awaitLoop (echo : List Nat) : List (List Nat) → List PyVal → Option (List PyVal × List (List Nat))
  | ts, r :: rs => Option.some (r :: rs, ts)
  | [], [] =>
    if bytesContains [] echo then Option.none
    else
      let response := [parse_line []]
      if response.any isEmptyStr then Option.some (response.eraseP isEmptyStr, [])
      else Option.some (response, [])
  | l :: rest, [] =>
    if bytesContains l echo then awaitLoop echo rest []
    else
      let response := [parse_line l]
      if response.any isEmptyStr then Option.some (response.eraseP isEmptyStr, rest)
      else Option.some (response, rest)

/-- The final collapse of `Scpy.command`: `len(response) == 1` returns the
bare element, an empty list returns `None`, anything else the list. -/
def collapseResp : List PyVal → PyVal
  | [v] => v
  | [] => PyVal.none
  | vs => PyVal.list vs

/-- Result of one `Scpy.command` call: a returned value together with the
session state after the call, a propagated exception together with the
session state at the raise point, or divergence of the read loop
(unreachable for the encodings produced by `write_line`). -/
inductive CmdOutcome where
  | ok (v : PyVal) (s : Scpy) : CmdOutcome
  | exn (s : Scpy) : CmdOutcome
  | hang : CmdOutcome

/-- The value returned by a `Scpy.command` call, when it returns one. -/
def CmdOutcome.value? : CmdOutcome → Option PyVal
  | CmdOutcome.ok v _ => Option.some v
  | _ => Option.none

/-- Model of `Scpy.command` (src/scpy.py): save the timeout, install the
per-call timeout, drain the receive buffer (`flush`, the `out_waiting`
busy-wait and `time.sleep(0.25)` have no observable effect in this model),
send the line, run the read loop, then clear the echo marker, restore the
saved timeout and collapse the response list. Note there is no
`try/finally` in the source: an exception thrown by `write_line` leaves
the per-call timeout installed. -/
def Scpy.command (s : Scpy) (args : List (List Nat)) (tmo : ℚ) : CmdOutcome :=
  let tmp := s.timeout
  let s1 : Scpy := { s with timeout := tmo }
  let s2 : Scpy := (Scpy.read_all s1).2
  match Scpy.write_line s2 args with
  | Option.none => CmdOutcome.exn s2
  | Option.some s3 =>
    match s3.echo_of_the_command with
    | Option.none => CmdOutcome.hang
    | Option.some echo =>
      match awaitLoop echo s3.transcript [] with
      | Option.none => CmdOutcome.hang
      | Option.some (resp, rest) =>
        CmdOutcome.ok (collapseResp resp)
          { s3 with
            transcript := rest
            echo_of_the_command := Option.none
            timeout := tmp }

/-- A fresh session, as after `Scpy.__init__`: timeout 1, empty receive
buffer, no echo marker, nothing written, and a given incoming transcript. -/
def mkSession (ts : List (List Nat)) : Scpy :=
  { timeout := 1, stale := [], transcript := ts
    echo_of_the_command := Option.none, written := [] }

/-- Chunks of the encoded line strictly between the space separator and the
terminator: the argument chunks with a comma chunk between each pair. Used
to describe the output of `prepare_line_to_send`. -/
def commaJoinChunks : List (List Nat) → List (List Nat)
  | [] => []
  | [w] => [w]
  | w :: ws => w :: [44] :: commaJoinChunks ws

/-- Unfolding of `Scpy.command` when the encoder fails: the per-call
timeout is already installed and the exception propagates. -/
theorem command_exn_of_prep_none (s : Scpy) (args : List (List Nat)) (tmo : ℚ)
    (h : prepare_line_to_send args = Option.none) :
    Scpy.command s args tmo = CmdOutcome.exn { s with timeout := tmo, stale := [] } := by
  unfold Scpy.command Scpy.write_line Scpy.read_all
  simp [h]

/-- Unfolding of `Scpy.command` when the encoder succeeds with line `L`:
the transaction reduces to the read loop with `L` as echo marker, and on a
terminating loop the timeout is restored and the marker cleared. -/
theorem command_eq_of_prep (s : Scpy) (args : List (List Nat)) (tmo : ℚ) (L : List Nat)
    (h : prepare_line_to_send args = Option.some L) :
    Scpy.command s args tmo =
      match awaitLoop L s.transcript [] with
      | Option.none => CmdOutcome.hang
      | Option.some (resp, rest) =>
          CmdOutcome.ok (collapseResp resp)
            { timeout := s.timeout, stale := [], transcript := rest
              echo_of_the_command := Option.none, written := s.written ++ [L] } := by
  unfold Scpy.command Scpy.write_line Scpy.read_all
  simp [h]

/-- Claim C2, amended: on every exit of `Scpy.command` that returns a value
(success, an empty reply, or a timed-out wait — every non-raising exit),
the session's timeout after the call equals its value immediately before
the call. (The original claim also covered raising exits; see the
counterexample.) -/
theorem claim_C2 (s : Scpy) (args : List (List Nat)) (tmo : ℚ) (v : PyVal) (s' : Scpy)
    (h : Scpy.command s args tmo = CmdOutcome.ok v s') : s'.timeout = s.timeout := by
  cases hp : prepare_line_to_send args with
  | none =>
    rw [command_exn_of_prep_none s args tmo hp] at h
    exact CmdOutcome.noConfusion h
  | some L =>
    rw [command_eq_of_prep s args tmo L hp] at h
    cases ha : awaitLoop L s.transcript [] with
    | none =>
      simp only [ha] at h
      exact CmdOutcome.noConfusion h
    | some p =>
      simp only [ha] at h
      injection h with h1 h2
      rw [← h2]

/-- Claim C2 witness: a concrete successful call (a query on an exhausted
transcript, i.e. a timed-out wait returning `None`) restores the timeout. -/
theorem claim_C2_witness :
    Scpy.timeout ⟨1, [], [], Option.none, [b "*IDN?\n"]⟩ = Scpy.timeout (mkSession []) :=
  claim_C2 (mkSession []) [b "*IDN?"] 2 PyVal.none ⟨1, [], [], Option.none, [b "*IDN?\n"]⟩ rfl

/-- Claim C2 counterexample: `Scpy.command` has no `try/finally`, so an
error raised mid-transaction (here the encoder fault of a zero-argument
call, raised during the send phase) leaves the per-call timeout installed:
after the raising call the timeout is 5/2, not the pre-call value 1. -/
theorem claim_C2_cex :
    Scpy.command (mkSession []) [] (5 / 2) =
      CmdOutcome.exn ⟨5 / 2, [], [], Option.none, []⟩ ∧
    Scpy.timeout ⟨5 / 2, [], [], Option.none, []⟩ ≠ Scpy.timeout (mkSession []) := by
  constructor
  · rfl
  · show (5 / 2 : ℚ) ≠ 1
    norm_num

/-- Claim C3, amended: executing `('*IDN?',)` against the transcript
consisting of the single line `"MODEL123\n"` (no echo) returns the integer
123: sanitization strips the letters of the token and the remaining digit
string parses as an integer, so the original token text is not preserved. -/
theorem claim_C3 :
    ∃ s', Scpy.command (mkSession [b "MODEL123\n"]) [b "*IDN?"] (5 / 2) =
      CmdOutcome.ok (PyVal.int 123) s' :=
  ⟨_, rfl⟩

/-- Claim C3 counterexample: on the claimed input the returned value is the
integer 123, which is not the text value `"MODEL123"`. -/
theorem claim_C3_cex :
    CmdOutcome.value? (Scpy.command (mkSession [b "MODEL123\n"]) [b "*IDN?"] (5 / 2)) =
      Option.some (PyVal.int 123) ∧
    Option.some (PyVal.int 123) ≠ Option.some (PyVal.str "MODEL123") := by
  constructor
  · rfl
  · simp

/-- Claim C9: the encoder called with zero arguments fails (the `pop(-1)`
on the empty buffer raises `IndexError`), `write_line` with zero arguments
propagates that failure without setting the echo marker or writing, and a
zero-argument `Scpy.command` raises with the wire log unchanged — no byte
of a zero-argument call ever reaches the wire. -/
theorem claim_C9 :
    prepare_line_to_send [] = Option.none ∧
    (∀ s : Scpy, Scpy.write_line s [] = Option.none) ∧
    (∀ (s : Scpy) (tmo : ℚ), ∃ s', Scpy.command s [] tmo = CmdOutcome.exn s' ∧
      s'.written = s.written) :=
  ⟨rfl, fun _ => rfl, fun s tmo => ⟨{ s with timeout := tmo, stale := [] }, rfl, rfl⟩⟩

/-- If some chunk is empty, the per-chunk pass fails (the `word[-1]` check
raises `IndexError` on the empty chunk). -/
theorem prepWords_none_of_mem_nil (args : List (List Nat)) (h : ([] : List Nat) ∈ args) :
    prepWords args = Option.none := by
  induction args with
  | nil => cases h
  | cons w ws ih =>
    cases List.mem_cons.mp h with
    | inl hw =>
      subst hw
      rfl
    | inr hws =>
      unfold prepWords
      rw [ih hws]
      cases prepWord w <;> rfl

/-- Claim C10: the zero-argument case is not the only failing input — any
call in which some argument's rendered byte string is empty raises (the
trailing-carriage-return check indexes `word[-1]` out of range) and
produces no outgoing line. -/
theorem claim_C10 (args : List (List Nat)) (h : ([] : List Nat) ∈ args) :
    prepare_line_to_send args = Option.none := by
  unfold prepare_line_to_send
  rw [prepWords_none_of_mem_nil args h]

/-- Claim C10 witness: a concrete two-argument call whose second argument
renders to the empty byte string fails. -/
theorem claim_C10_witness : prepare_line_to_send [b "VOLT", []] = Option.none :=
  claim_C10 [b "VOLT", []] (by simp)

/-- Claim C5: the collapse rule of `parse_line` — zero classified tokens
give `None`, exactly one gives that token's typed value bare (not wrapped
in a list), and two or more give the list of typed values in original
order. -/
theorem claim_C5 (line : List Nat) :
    (tokenValues line = [] → parse_line line = PyVal.none) ∧
    (∀ v, tokenValues line = [v] → parse_line line = v) ∧
    (∀ v₁ v₂ vs, tokenValues line = v₁ :: v₂ :: vs →
      parse_line line = PyVal.list (v₁ :: v₂ :: vs)) := by
  refine ⟨fun h => ?_, fun v h => ?_, fun v₁ v₂ vs h => ?_⟩ <;>
    · unfold parse_line
      rw [h]

/-- Claim C5 witness: `"5.0,1.2"` parses to the two-element list of the
decimal rationals 5 and 6/5, and a single clean integer token parses to a
bare integer, not a one-element list. -/
theorem claim_C5_witness :
    parse_line (b "5.0,1.2") =
      PyVal.list [PyVal.float (mkRat 5 1), PyVal.float (mkRat 6 5)] ∧
    parse_line (b "7") = PyVal.int 7 :=
  ⟨(claim_C5 (b "5.0,1.2")).2.2 _ _ _ rfl, (claim_C5 (b "7")).2.1 _ rfl⟩

/-- Claim C7: whenever the sanitized form of a token parses as neither an
integer nor a float, classification returns the original, unsanitized
token text (and since `classifyToken` is a total function, malformed
numeric text never raises — it always degrades to the text variant). -/
theorem claim_C7 (t : List Char)
    (hi : pyint (sanitizeToken t) = Option.none)
    (hf : pyfloat (sanitizeToken t) = Option.none) :
    classifyToken t = PyVal.str (String.mk t) := by
  unfold classifyToken
  rw [hi, hf]

/-- Claim C7 witness: the token `"ON"` sanitizes to the empty string, both
numeric parses fail, and the original text `"ON"` is returned. -/
theorem claim_C7_witness : classifyToken ['O', 'N'] = PyVal.str "ON" :=
  claim_C7 ['O', 'N'] rfl rfl

/-- A block of lines that each contain the echo marker is skipped whole by
the read loop without consuming a response slot. -/
theorem awaitLoop_skip (echo : List Nat) (pre ts : List (List Nat))
    (hpre : ∀ l ∈ pre, bytesContains l echo = true) :
    awaitLoop echo (pre ++ ts) [] = awaitLoop echo ts [] := by
  induction pre with
  | nil => rfl
  | cons l pre ih =>
    have hl : bytesContains l echo = true := hpre l (List.mem_cons_self l pre)
    cases ts with
    | nil =>
      simp only [List.cons_append]
      unfold awaitLoop
      rw [hl]
      exact ih fun x hx => hpre x (List.mem_cons_of_mem l hx)
    | cons t ts' =>
      simp only [List.cons_append]
      unfold awaitLoop
      rw [hl]
      exact ih fun x hx => hpre x (List.mem_cons_of_mem l hx)

/-- A line free of the echo marker that parses to a non-blank value is
accepted: the loop returns it as the single response and stops reading. -/
theorem awaitLoop_accept (echo l : List Nat) (rest : List (List Nat))
    (hl : bytesContains l echo = false)
    (hb : isEmptyStr (parse_line l) = false) :
    awaitLoop echo (l :: rest) [] = Option.some ([parse_line l], rest) := by
  unfold awaitLoop
  rw [hl]
  simp [hb]

/-- A line free of the echo marker that parses to the blank text value is
accepted and immediately removed: the loop stops with an empty response
list, reading nothing further. -/
theorem awaitLoop_accept_blank (echo l : List Nat) (rest : List (List Nat))
    (hl : bytesContains l echo = false)
    (hb : isEmptyStr (parse_line l) = true) :
    awaitLoop echo (l :: rest) [] = Option.some ([], rest) := by
  unfold awaitLoop
  rw [hl]
  simp [hb, List.eraseP_cons_of_pos]

/-- Claim C1: in a transaction whose transport reflects the command, every
received line that contains the transmitted line as a substring is
discarded and another line is read; with a transcript whose leading lines
all contain the echo (in particular a first line equal to the transmitted
bytes) followed by the real (non-blank, non-echo) reply, `execute` returns
the parsed value of that reply, never the echo. -/
theorem claim_C1 (s : Scpy) (args : List (List Nat)) (tmo : ℚ) (L : List Nat)
    (pre : List (List Nat)) (l2 : List Nat) (rest : List (List Nat))
    (hprep : prepare_line_to_send args = Option.some L)
    (hts : s.transcript = pre ++ l2 :: rest)
    (hpre : ∀ l ∈ pre, bytesContains l L = true)
    (hecho : bytesContains l2 L = false)
    (hreal : isEmptyStr (parse_line l2) = false) :
    ∃ s', Scpy.command s args tmo = CmdOutcome.ok (parse_line l2) s' ∧
      s'.transcript = rest := by
  refine ⟨{ timeout := s.timeout, stale := [], transcript := rest
            echo_of_the_command := Option.none, written := s.written ++ [L] }, ?_, rfl⟩
  rw [command_eq_of_prep s args tmo L hprep, hts, awaitLoop_skip L pre (l2 :: rest) hpre,
    awaitLoop_accept L l2 rest hecho hreal]
  rfl

/-- Claim C1 witness: the end-to-end scenario of the spec — send
`("APPL", 5.0, 1.2)`, transcript is the echoed `"APPL 5.0,1.2\n"` followed
by `"5.0,1.2\n"`; the echo is discarded and the parsed second line, the
list [5.0, 1.2], is returned. -/
theorem claim_C1_witness :
    (∃ s', Scpy.command (mkSession [b "APPL 5.0,1.2\n", b "5.0,1.2\n"])
        [b "APPL", b "5.0", b "1.2"] (5 / 2) =
        CmdOutcome.ok (parse_line (b "5.0,1.2\n")) s' ∧ s'.transcript = []) ∧
    parse_line (b "5.0,1.2\n") =
      PyVal.list [PyVal.float (mkRat 5 1), PyVal.float (mkRat 6 5)] :=
  ⟨claim_C1 (mkSession [b "APPL 5.0,1.2\n", b "5.0,1.2\n"])
      [b "APPL", b "5.0", b "1.2"] (5 / 2) (b "APPL 5.0,1.2\n")
      [b "APPL 5.0,1.2\n"] (b "5.0,1.2\n") [] rfl rfl
      (by intro l hl; rw [List.mem_singleton.mp hl]; rfl) rfl rfl,
    rfl⟩

/-- Claim C4: the read loop of `execute` stops as soon as one non-echo line
has been accepted — the response list holds at most one parsed unit — and
when the first non-echo line is blank it is dropped and `execute` returns
`None`, reading nothing past that line (the empty response is terminal). -/
theorem claim_C4 :
    (∀ (echo : List Nat) (ts : List (List Nat)) (out : List PyVal × List (List Nat)),
      awaitLoop echo ts [] = Option.some out → out.1.length ≤ 1) ∧
    (∀ (s : Scpy) (args : List (List Nat)) (tmo : ℚ) (L l : List Nat)
        (rest : List (List Nat)),
      prepare_line_to_send args = Option.some L →
      s.transcript = l :: rest →
      bytesContains l L = false →
      isEmptyStr (parse_line l) = true →
      ∃ s', Scpy.command s args tmo = CmdOutcome.ok PyVal.none s' ∧
        s'.transcript = rest) := by
  constructor
  · intro echo ts
    induction ts with
    | nil =>
      intro out h
      unfold awaitLoop at h
      by_cases hc : bytesContains [] echo = true
      · rw [hc] at h
        simp at h
      · rw [Bool.not_eq_true] at hc
        rw [hc] at h
        simp only [Bool.false_eq_true, if_false] at h
        by_cases hb : isEmptyStr (parse_line []) = true
        · simp [hb] at h
          rw [← h]
          simp [List.eraseP_cons_of_pos, hb]
        · rw [Bool.not_eq_true] at hb
          simp [hb] at h
          rw [← h]
          simp
    | cons l rest ih =>
      intro out h
      unfold awaitLoop at h
      by_cases hc : bytesContains l echo = true
      · rw [hc] at h
        exact ih out h
      · rw [Bool.not_eq_true] at hc
        rw [hc] at h
        simp only [Bool.false_eq_true, if_false] at h
        by_cases hb : isEmptyStr (parse_line l) = true
        · simp [hb] at h
          rw [← h]
          simp [List.eraseP_cons_of_pos, hb]
        · rw [Bool.not_eq_true] at hb
          simp [hb] at h
          rw [← h]
          simp
  · intro s args tmo L l rest hprep hts hecho hblank
    refine ⟨{ timeout := s.timeout, stale := [], transcript := rest
              echo_of_the_command := Option.none, written := s.written ++ [L] }, ?_, rfl⟩
    rw [command_eq_of_prep s args tmo L hprep, hts,
      awaitLoop_accept_blank L l rest hecho hblank]
    rfl

/-- Claim C4 witness: a concrete accepted line yields a one-element
response list, and a transcript whose first (non-echo) line is blank makes
a concrete `execute` call return `None` with the rest of the transcript
unread. -/
theorem claim_C4_witness :
    ([parse_line (b "OK\n")], ([] : List (List Nat))).1.length ≤ 1 ∧
    (∃ s', Scpy.command (mkSession [b "\n"]) [b "*IDN?"] (5 / 2) =
      CmdOutcome.ok PyVal.none s' ∧ s'.transcript = []) :=
  ⟨claim_C4.1 (b "*IDN?\n") [b "OK\n"] ([parse_line (b "OK\n")], []) rfl,
    claim_C4.2 (mkSession [b "\n"]) [b "*IDN?"] (5 / 2) (b "*IDN?\n") (b "\n") []
      rfl rfl rfl rfl⟩

/-- The split function never returns an empty piece list (as `re.split`
never does: splitting any string yields at least one piece). -/
theorem pysplit_ne_nil (cs : List Char) : pysplit cs ≠ [] := by
  induction cs with
  | nil => simp [pysplit]
  | cons c rest ih =>
    unfold pysplit
    by_cases hc : isDelim c = true
    · simp only [hc, if_true]
      cases rest with
      | nil => simp
      | cons r rs =>
        by_cases hr : isDelim r = true
        · simpa [hr] using ih
        · simp [hr]
    · rw [Bool.not_eq_true] at hc
      simp only [hc, Bool.false_eq_true, if_false]
      cases hps : pysplit rest with
      | nil => simp
      | cons t ts => simp

/-- Boundary structure of the split: an empty piece can occur only at the
two ends. Part one: every piece strictly between the first and the last is
nonempty. Part two: when the input does not begin with a delimiter, every
piece except the last is nonempty. -/
theorem pysplit_boundary (cs : List Char) :
    (∀ t ∈ ((pysplit cs).drop 1).dropLast, t ≠ []) ∧
    ((∀ c, cs.head? = Option.some c → isDelim c = false) →
      ∀ t ∈ (pysplit cs).dropLast, t ≠ []) := by
  induction cs with
  | nil =>
    constructor
    · simp [pysplit]
    · intro _
      simp [pysplit]
  | cons c rest ih =>
    by_cases hc : isDelim c = true
    · constructor
      · cases rest with
        | nil =>
          unfold pysplit
          simp [hc]
        | cons r rs =>
          by_cases hr : isDelim r = true
          · unfold pysplit
            simp only [hc, if_true, hr]
            exact ih.1
          · unfold pysplit
            simp only [hc, if_true, hr, Bool.false_eq_true, if_false, List.drop_succ_cons,
              List.drop_zero]
            refine ih.2 fun c' hc' => ?_
            rw [List.head?_cons, Option.some.injEq] at hc'
            rw [← hc']
            rw [Bool.not_eq_true] at hr
            exact hr
      · intro hhead
        exact absurd (hhead c rfl) (by simp [hc])
    · rw [Bool.not_eq_true] at hc
      cases hps : pysplit rest with
      | nil => exact absurd hps (pysplit_ne_nil rest)
      | cons t0 ts =>
        have hres : pysplit (c :: rest) = (c :: t0) :: ts := by
          unfold pysplit
          simp [hc, hps]
        have ih1 : ∀ t ∈ ts.dropLast, t ≠ [] := by
          have := ih.1
          rw [hps] at this
          simpa using this
        constructor
        · rw [hres]
          simpa using ih1
        · intro _
          rw [hres]
          cases ts with
          | nil => simp
          | cons u us =>
            rw [List.dropLast_cons₂]
            intro t ht
            cases List.mem_cons.mp ht with
            | inl h1 =>
              rw [h1]
              simp
            | inr h2 => exact ih1 t h2

/-- Claim C6, amended: adjacent delimiters merge into one split point, so
no empty token ever occurs strictly between two other tokens; but — contra
the original claim — a line that still begins or ends with a delimiter
after whitespace stripping yields an empty token at that boundary (see the
counterexample). -/
theorem claim_C6 (line : List Nat) (t : List Char)
    (ht : t ∈ ((splitTokens line).drop 1).dropLast) : t ≠ [] :=
  (pysplit_boundary (pystrip (decodeBytes line))).1 t ht

/-- Claim C6 counterexample: the line `",5"` begins with a comma that
whitespace stripping does not remove, and the split retains an empty token
at the front — the split step does produce empty tokens. -/
theorem claim_C6_cex :
    splitTokens (b ",5") = [[], ['5']] ∧ ([] : List Char) ∈ splitTokens (b ",5") :=
  ⟨rfl, by decide⟩

/-- Claim C6 witness: in a three-token line the middle token is interior,
and the amended theorem shows it is nonempty. -/
theorem claim_C6_witness :
    (['b'] : List Char) ∈ ((splitTokens (b "a,b,c")).drop 1).dropLast ∧
    (['b'] : List Char) ≠ [] :=
  ⟨by decide, claim_C6 (b "a,b,c") ['b'] (by decide)⟩

/-- A chunk that is nonempty and free of carriage returns passes the
per-chunk preparation unchanged. -/
theorem prepWord_id (w : List Nat) (hne : w ≠ []) (h13 : (13 : Nat) ∉ w) :
    prepWord w = Option.some w := by
  unfold prepWord
  rw [List.getLast?_eq_getLast_of_ne_nil hne]
  have hlast : w.getLast hne ≠ 13 := fun hc => h13 (hc ▸ List.getLast_mem hne)
  simp [hlast]

/-- Chunks that are nonempty and free of carriage returns pass the
preparation pass unchanged. -/
theorem prepWords_id (ws : List (List Nat)) (h : ∀ w ∈ ws, w ≠ [] ∧ (13 : Nat) ∉ w) :
    prepWords ws = Option.some ws := by
  induction ws with
  | nil => rfl
  | cons w ws ih =>
    unfold prepWords
    rw [prepWord_id w (h w (List.mem_cons_self w ws)).1 (h w (List.mem_cons_self w ws)).2,
      ih fun x hx => h x (List.mem_cons_of_mem w hx)]

/-- Popping the trailing comma separator from the comma-interleaved tail of
the buffer leaves exactly the chunks joined by single comma chunks. -/
theorem sepTail_dropLast (w : List Nat) (ws : List (List Nat)) :
    ((w :: ws).flatMap (fun v => [v, [44]])).dropLast = commaJoinChunks (w :: ws) := by
  induction ws generalizing w with
  | nil => rfl
  | cons u us ih =>
    have h1 : (w :: u :: us).flatMap (fun v => [v, ([44] : List Nat)]) =
        w :: [44] :: ((u :: us).flatMap (fun v => [v, [44]])) := rfl
    have h2 : (u :: us).flatMap (fun v => [v, ([44] : List Nat)]) =
        u :: [44] :: (us.flatMap (fun v => [v, [44]])) := rfl
    rw [h1, h2, List.dropLast_cons₂, List.dropLast_cons₂, ← h2, ih u]
    rfl

/-- Shape of a successful encoding with at least one argument after the
command chunk: the command, one space byte, the arguments joined by single
comma bytes, and one terminating newline byte. -/
theorem prepare_cons_eq (c a : List Nat) (as : List (List Nat))
    (hprep : prepWords (c :: a :: as) = Option.some (c :: a :: as)) :
    prepare_line_to_send (c :: a :: as) =
      Option.some
        (((c :: [32] :: ((a :: as).flatMap fun v => [v, ([44] : List Nat)])).dropLast
          ++ [[10]]).flatten) := by
  unfold prepare_line_to_send
  rw [hprep]
  rfl

theorem prepare_line_shape (c : List Nat) (args : List (List Nat)) (hargs : args ≠ [])
    (h : ∀ w ∈ c :: args, w ≠ [] ∧ (13 : Nat) ∉ w) :
    prepare_line_to_send (c :: args) =
      Option.some (c ++ 32 :: ((commaJoinChunks args).flatten ++ [10])) := by
  cases args with
  | nil => exact absurd rfl hargs
  | cons a as =>
    have h2 : (a :: as).flatMap (fun v => [v, ([44] : List Nat)]) =
        a :: [44] :: (as.flatMap (fun v => [v, [44]])) := rfl
    rw [prepare_cons_eq c a as (prepWords_id _ h), h2, List.dropLast_cons₂,
      List.dropLast_cons₂, ← h2, sepTail_dropLast a as]
    simp [List.flatten_cons, List.append_assoc]

/-- Comma count of the joined argument chunks: with comma-free chunks it is
exactly one less than the number of chunks. -/
theorem cjf_count_comma (args : List (List Nat)) (hne : args ≠ [])
    (h : ∀ w ∈ args, (44 : Nat) ∉ w) :
    ((commaJoinChunks args).flatten).count 44 = args.length - 1 := by
  induction args with
  | nil => exact absurd rfl hne
  | cons a as ih =>
    cases as with
    | nil =>
      show (List.flatten [a]).count 44 = 0
      simp [List.count_eq_zero.mpr (h a (List.mem_cons_self a []))]
    | cons u us =>
      have hcj : commaJoinChunks (a :: u :: us) = a :: [44] :: commaJoinChunks (u :: us) := rfl
      rw [hcj, List.flatten_cons, List.flatten_cons, List.count_append, List.count_append,
        List.count_eq_zero.mpr (h a (List.mem_cons_self a (u :: us))),
        ih (by simp) (fun w hw => h w (List.mem_cons_of_mem a hw))]
      simp
      omega

/-- Any byte other than the comma that occurs in no argument chunk does not
occur in the joined argument chunks at all. -/
theorem cjf_count_other (x : Nat) (args : List (List Nat)) (hx : x ≠ 44)
    (h : ∀ w ∈ args, x ∉ w) : ((commaJoinChunks args).flatten).count x = 0 := by
  induction args with
  | nil => rfl
  | cons a as ih =>
    cases as with
    | nil =>
      show (List.flatten [a]).count x = 0
      simp [List.count_eq_zero.mpr (h a (List.mem_cons_self a []))]
    | cons u us =>
      have hcj : commaJoinChunks (a :: u :: us) = a :: [44] :: commaJoinChunks (u :: us) := rfl
      rw [hcj, List.flatten_cons, List.flatten_cons, List.count_append, List.count_append,
        List.count_eq_zero.mpr (h a (List.mem_cons_self a (u :: us))),
        List.count_eq_zero.mpr (show x ∉ ([44] : List Nat) by simp [hx]),
        ih (fun w hw => h w (List.mem_cons_of_mem a hw))]

/-- The last byte of the joined argument chunks exists (chunks nonempty)
and belongs to one of the chunks. -/
theorem cjf_getLast (args : List (List Nat)) (hne : args ≠ [])
    (hw : ∀ w ∈ args, w ≠ []) :
    ∃ y, ((commaJoinChunks args).flatten).getLast? = Option.some y ∧
      ∃ w, w ∈ args ∧ y ∈ w := by
  induction args with
  | nil => exact absurd rfl hne
  | cons a as ih =>
    cases as with
    | nil =>
      have ha : a ≠ [] := hw a (List.mem_cons_self a [])
      refine ⟨a.getLast ha, ?_, a, List.mem_cons_self a [], List.getLast_mem ha⟩
      show (List.flatten [a]).getLast? = _
      simp [List.getLast?_eq_getLast_of_ne_nil ha]
    | cons u us =>
      obtain ⟨y, hy, w, hwm, hyw⟩ :=
        ih (by simp) (fun w' hw' => hw w' (List.mem_cons_of_mem a hw'))
      refine ⟨y, ?_, w, List.mem_cons_of_mem a hwm, hyw⟩
      have hF : (commaJoinChunks (u :: us)).flatten ≠ [] := by
        intro hcon
        rw [hcon] at hy
        exact Option.noConfusion hy
      have hcj : commaJoinChunks (a :: u :: us) = a :: [44] :: commaJoinChunks (u :: us) := rfl
      rw [hcj, List.flatten_cons, List.flatten_cons,
        List.getLast?_append_of_ne_nil a (by simp),
        List.getLast?_append_of_ne_nil [44] hF]
      exact hy

/-- Claim C8: for a command chunk followed by `n ≥ 1` argument chunks (all
nonempty and free of the newline, carriage-return, space and comma bytes,
as the rendered forms of scalar arguments are), the encoded line ends in
exactly one newline terminator byte, contains exactly `n − 1` comma
separator bytes and exactly one space separator byte, and has no trailing
separator: the byte immediately before the terminator is neither a comma
nor a space. -/
theorem claim_C8 (c : List Nat) (args : List (List Nat)) (hargs : args ≠ [])
    (hwords : ∀ w ∈ c :: args, w ≠ [] ∧ ∀ x ∈ w, x ≠ 10 ∧ x ≠ 13 ∧ x ≠ 32 ∧ x ≠ 44) :
    ∃ L, prepare_line_to_send (c :: args) = Option.some L ∧
      L.getLast? = Option.some 10 ∧
      L.count 10 = 1 ∧
      L.count 44 = args.length - 1 ∧
      L.count 32 = 1 ∧
      ∀ y, L.dropLast.getLast? = Option.some y → y ≠ 44 ∧ y ≠ 32 := by
  have h13 : ∀ w ∈ c :: args, w ≠ [] ∧ (13 : Nat) ∉ w := fun w hw =>
    ⟨(hwords w hw).1, fun h13m => ((hwords w hw).2 13 h13m).2.1 rfl⟩
  have hc10 : (10 : Nat) ∉ c := fun hm =>
    ((hwords c (List.mem_cons_self c args)).2 10 hm).1 rfl
  have hc32 : (32 : Nat) ∉ c := fun hm =>
    ((hwords c (List.mem_cons_self c args)).2 32 hm).2.2.1 rfl
  have hc44 : (44 : Nat) ∉ c := fun hm =>
    ((hwords c (List.mem_cons_self c args)).2 44 hm).2.2.2 rfl
  have ha10 : ∀ w ∈ args, (10 : Nat) ∉ w := fun w hw hm =>
    ((hwords w (List.mem_cons_of_mem c hw)).2 10 hm).1 rfl
  have ha32 : ∀ w ∈ args, (32 : Nat) ∉ w := fun w hw hm =>
    ((hwords w (List.mem_cons_of_mem c hw)).2 32 hm).2.2.1 rfl
  have ha44 : ∀ w ∈ args, (44 : Nat) ∉ w := fun w hw hm =>
    ((hwords w (List.mem_cons_of_mem c hw)).2 44 hm).2.2.2 rfl
  have hane : ∀ w ∈ args, w ≠ [] := fun w hw => (hwords w (List.mem_cons_of_mem c hw)).1
  refine ⟨c ++ 32 :: ((commaJoinChunks args).flatten ++ [10]),
    prepare_line_shape c args hargs h13, ?_, ?_, ?_, ?_, ?_⟩
  · rw [List.getLast?_append_of_ne_nil c (by simp)]
    show (([32] : List Nat) ++ ((commaJoinChunks args).flatten ++ [10])).getLast? = _
    rw [List.getLast?_append_of_ne_nil [32] (by simp),
      List.getLast?_append_of_ne_nil _ (by simp)]
    rfl
  · rw [List.count_append, List.count_eq_zero.mpr hc10, List.count_cons, List.count_append,
      cjf_count_other 10 args (by decide) ha10]
    rfl
  · rw [List.count_append, List.count_eq_zero.mpr hc44, List.count_cons, List.count_append,
      cjf_count_comma args hargs ha44]
    simp
  · rw [List.count_append, List.count_eq_zero.mpr hc32, List.count_cons, List.count_append,
      cjf_count_other 32 args (by decide) ha32]
    rfl
  · obtain ⟨y0, hy0, w, hwm, hyw⟩ := cjf_getLast args hargs hane
    have hF : (commaJoinChunks args).flatten ≠ [] := by
      intro hcon
      rw [hcon] at hy0
      exact Option.noConfusion hy0
    have hsplit : c ++ 32 :: ((commaJoinChunks args).flatten ++ [10]) =
        (c ++ 32 :: (commaJoinChunks args).flatten) ++ [10] := by
      simp [List.append_assoc]
    rw [hsplit, List.dropLast_concat, List.getLast?_append_of_ne_nil c (by simp)]
    show ∀ y, (([32] : List Nat) ++ (commaJoinChunks args).flatten).getLast? =
      Option.some y → y ≠ 44 ∧ y ≠ 32
    rw [List.getLast?_append_of_ne_nil [32] hF, hy0]
    intro y hy
    rw [Option.some.injEq] at hy
    rw [← hy]
    exact ⟨fun hc44' => ((hwords w (List.mem_cons_of_mem c hwm)).2 y0 hyw).2.2.2 hc44',
      fun hc32' => ((hwords w (List.mem_cons_of_mem c hwm)).2 y0 hyw).2.2.1 hc32'⟩

/-- Claim C8 witness: the spec's example — command `APPL` with arguments
`5.0` and `1.2` encodes to `"APPL 5.0,1.2\n"`, with one terminator, one
comma (`n − 1` for `n = 2`), one space, and no trailing separator. -/
theorem claim_C8_witness :
    (∃ L, prepare_line_to_send (b "APPL" :: [b "5.0", b "1.2"]) = Option.some L ∧
      L.getLast? = Option.some 10 ∧
      L.count 10 = 1 ∧
      L.count 44 = [b "5.0", b "1.2"].length - 1 ∧
      L.count 32 = 1 ∧
      ∀ y, L.dropLast.getLast? = Option.some y → y ≠ 44 ∧ y ≠ 32) ∧
    prepare_line_to_send [b "APPL", b "5.0", b "1.2"] = Option.some (b "APPL 5.0,1.2\n") :=
  ⟨claim_C8 (b "APPL") [b "5.0", b "1.2"] (by decide) (by decide), rfl⟩
